import Mathlib

/-!
Shallow embedding of the rust-bank core (src/auth.rs, src/handlers.rs,
src/models.rs) and verification of its specification claims.

External collaborators are modelled explicitly:
* the JWT crate (`jsonwebtoken`) is modelled by a concrete injective string
  encoding of the claim set; the HS256 signature is modelled symbolically by
  recording the signing secret in the signature segment, so that verification
  with the configured secret succeeds exactly when the secrets coincide;
* the `uuid` crate is modelled by 128-bit values with the canonical
  hyphenated lower-case hex rendering and its parser;
* `bcrypt::verify` is an explicit function parameter (it returns
  `Option Bool`, modelling rust's `Result` which the code collapses with
  `unwrap_or(false)`);
* the SQLite store is a record of typed row lists; a `fault` flag models a
  store call returning an error; the store assigns `created_at` from a
  strictly increasing counter;
* `Utc::now` and the `JWT_SECRET` environment variable are explicit
  parameters; a rust panic is a distinguished response constructor.
-/

/-- Hexadecimal digit characters, lower case, as produced by the encoders. -/
def hexChar (n : Nat) : Char :=
  if n < 10 then Char.ofNat (48 + n) else Char.ofNat (87 + n)

/-- Value of a hex digit character (upper or lower case), `none` otherwise. -/
def hexVal (c : Char) : Option Nat :=
  if 48 ≤ c.toNat ∧ c.toNat ≤ 57 then some (c.toNat - 48)
  else if 97 ≤ c.toNat ∧ c.toNat ≤ 102 then some (c.toNat - 87)
  else if 65 ≤ c.toNat ∧ c.toNat ≤ 70 then some (c.toNat - 55)
  else none

theorem hexVal_hexChar : ∀ d : Nat, d < 16 → hexVal (hexChar d) = some d := by
  decide

theorem hexChar_ne_colon : ∀ d : Nat, d < 16 → hexChar d ≠ ':' := by
  decide

theorem hexChar_ne_dash : ∀ d : Nat, d < 16 → hexChar d ≠ '-' := by
  decide

/-- Splitter on a separator character; models splitting an encoded string
into its separator-delimited segments. Always returns at least one group. -/
def splitOnChar (sep : Char) : List Char → List (List Char)
  | [] => [[]]
  | c :: rest =>
    match splitOnChar sep rest with
    | [] => [[]]
    | g :: gs => if c = sep then [] :: g :: gs else (c :: g) :: gs

theorem splitOnChar_ne_nil (sep : Char) (l : List Char) :
    splitOnChar sep l ≠ [] := by
  induction l with
  | nil => simp [splitOnChar]
  | cons c rest ih =>
    simp only [splitOnChar]
    cases h : splitOnChar sep rest with
    | nil => simp
    | cons g gs =>
      by_cases hc : c = sep <;> simp [hc]

theorem splitOnChar_cons_sep (sep : Char) (l : List Char) :
    splitOnChar sep (sep :: l) = [] :: splitOnChar sep l := by
  have h := splitOnChar_ne_nil sep l
  simp only [splitOnChar]
  cases hl : splitOnChar sep l with
  | nil => exact absurd hl h
  | cons g gs => simp

theorem splitOnChar_cons_ne (sep c : Char) (l : List Char) (hc : c ≠ sep) :
    ∃ g gs, splitOnChar sep l = g :: gs ∧
      splitOnChar sep (c :: l) = (c :: g) :: gs := by
  cases hl : splitOnChar sep l with
  | nil => exact absurd hl (splitOnChar_ne_nil sep l)
  | cons g gs =>
    refine ⟨g, gs, rfl, ?_⟩
    simp only [splitOnChar, hl]
    simp [hc]

theorem splitOnChar_append_sep (sep : Char) (l r : List Char)
    (h : ∀ c ∈ l, c ≠ sep) :
    splitOnChar sep (l ++ sep :: r) = l :: splitOnChar sep r := by
  induction l with
  | nil => simpa using splitOnChar_cons_sep sep r
  | cons c cs ih =>
    have hc : c ≠ sep := h c (List.mem_cons_self c cs)
    have ih2 := ih (fun x hx => h x (List.mem_cons_of_mem c hx))
    obtain ⟨g, gs, hg, hgoal⟩ :=
      splitOnChar_cons_ne sep c (cs ++ sep :: r) hc
    rw [List.cons_append, hgoal]
    rw [ih2] at hg
    obtain ⟨h1, h2⟩ := List.cons.injEq .. ▸ hg
    simp_all

theorem splitOnChar_no_sep (sep : Char) (l : List Char)
    (h : ∀ c ∈ l, c ≠ sep) :
    splitOnChar sep l = [l] := by
  induction l with
  | nil => rfl
  | cons c cs ih =>
    have hc : c ≠ sep := h c (List.mem_cons_self c cs)
    have ih2 := ih (fun x hx => h x (List.mem_cons_of_mem c hx))
    obtain ⟨g, gs, hg, hgoal⟩ := splitOnChar_cons_ne sep c cs hc
    rw [hgoal]
    rw [ih2] at hg
    obtain ⟨h1, h2⟩ := List.cons.injEq .. ▸ hg
    simp_all

/-- Little-endian hex rendering of a natural number (fuel-driven so that it
is structurally recursive and kernel-reducible). `natToHexAux n n` renders
`n` completely because the digit count of `n` never exceeds `n`. -/
def natToHexAux : Nat → Nat → List Char
  | 0, _ => []
  | _ + 1, 0 => []
  | fuel + 1, n + 1 => hexChar ((n + 1) % 16) :: natToHexAux fuel ((n + 1) / 16)

/-- Little-endian hex rendering of a natural number; empty for `0`. -/
def natToHex (n : Nat) : List Char := natToHexAux n n

/-- Decode a little-endian hex digit string back into a natural number. -/
def hexToNat : List Char → Option Nat
  | [] => some 0
  | c :: rest =>
    match hexVal c, hexToNat rest with
    | some d, some acc => some (d + 16 * acc)
    | _, _ => none

theorem natToHexAux_no_colon (fuel : Nat) :
    ∀ n, ∀ c ∈ natToHexAux fuel n, c ≠ ':' := by
  induction fuel with
  | zero => intro n c hc; simp [natToHexAux] at hc
  | succ fuel ih =>
    intro n c hc
    cases n with
    | zero => simp [natToHexAux] at hc
    | succ m =>
      simp only [natToHexAux, List.mem_cons] at hc
      rcases hc with hc | hc
      · exact hc ▸ hexChar_ne_colon _ (Nat.mod_lt _ (by norm_num))
      · exact ih _ c hc

theorem hexToNat_natToHexAux (fuel : Nat) :
    ∀ n, n ≤ fuel → hexToNat (natToHexAux fuel n) = some n := by
  induction fuel with
  | zero =>
    intro n hn
    interval_cases n
    rfl
  | succ fuel ih =>
    intro n hn
    cases n with
    | zero => rfl
    | succ m =>
      have hdiv : (m + 1) / 16 ≤ fuel := by
        have := Nat.div_lt_self (Nat.succ_pos m) (by norm_num : (1:Nat) < 16)
        omega
      have ihd := ih ((m + 1) / 16) hdiv
      simp only [natToHexAux, hexToNat, ihd,
        hexVal_hexChar _ (Nat.mod_lt _ (by norm_num : (0:Nat) < 16)),
        Option.some.injEq]
      omega

theorem hexToNat_natToHex (n : Nat) : hexToNat (natToHex n) = some n :=
  hexToNat_natToHexAux n n (Nat.le_refl n)

theorem natToHex_no_colon (n : Nat) : ∀ c ∈ natToHex n, c ≠ ':' :=
  natToHexAux_no_colon n n

theorem natToHexAux_no_dash (fuel : Nat) :
    ∀ n, ∀ c ∈ natToHexAux fuel n, c ≠ '-' := by
  induction fuel with
  | zero => intro n c hc; simp [natToHexAux] at hc
  | succ fuel ih =>
    intro n c hc
    cases n with
    | zero => simp [natToHexAux] at hc
    | succ m =>
      simp only [natToHexAux, List.mem_cons] at hc
      rcases hc with hc | hc
      · exact hc ▸ hexChar_ne_dash _ (Nat.mod_lt _ (by norm_num))
      · exact ih _ c hc

/-- Fixed-width (6 hex digits, little-endian) rendering of one character;
every Unicode scalar value fits because it is below `16 ^ 6`. -/
def charHex6 (c : Char) : List Char :=
  [hexChar (c.toNat % 16),
   hexChar (c.toNat / 16 % 16),
   hexChar (c.toNat / 16 ^ 2 % 16),
   hexChar (c.toNat / 16 ^ 3 % 16),
   hexChar (c.toNat / 16 ^ 4 % 16),
   hexChar (c.toNat / 16 ^ 5 % 16)]

/-- Encode a character list, six hex digits per character. -/
def encodeChars : List Char → List Char
  | [] => []
  | c :: cs => charHex6 c ++ encodeChars cs

/-- Read six little-endian hex digits as one natural number. -/
def hexValsToNat (a b c d e f : Char) : Option Nat :=
  match hexVal a, hexVal b, hexVal c, hexVal d, hexVal e, hexVal f with
  | some va, some vb, some vc, some vd, some ve, some vf =>
    some (va + 16 * (vb + 16 * (vc + 16 * (vd + 16 * (ve + 16 * vf)))))
  | _, _, _, _, _, _ => none

/-- Decode a six-hex-digits-per-character encoding back to characters. -/
def decodeChars : List Char → Option (List Char)
  | [] => some []
  | a :: b :: c :: d :: e :: f :: rest =>
    match hexValsToNat a b c d e f with
    | none => none
    | some n =>
      if h : n.isValidChar then
        match decodeChars rest with
        | none => none
        | some cs => some (Char.ofNat n :: cs)
      else none
  | _ => none

theorem char_toNat_lt (c : Char) : c.toNat < 16 ^ 6 := by
  have h := c.valid
  simp only [UInt32.isValidChar, Nat.isValidChar] at h
  simp only [Char.toNat]
  rcases h with h | h <;> omega

theorem char_toNat_isValidChar (c : Char) : Nat.isValidChar c.toNat := by
  have h := c.valid
  simpa only [UInt32.isValidChar, Char.toNat] using h

theorem hexValsToNat_charHex6 (c : Char) :
    hexValsToNat (hexChar (c.toNat % 16)) (hexChar (c.toNat / 16 % 16))
      (hexChar (c.toNat / 16 ^ 2 % 16)) (hexChar (c.toNat / 16 ^ 3 % 16))
      (hexChar (c.toNat / 16 ^ 4 % 16)) (hexChar (c.toNat / 16 ^ 5 % 16)) =
      some c.toNat := by
  have hlt := char_toNat_lt c
  simp only [hexValsToNat,
    hexVal_hexChar _ (Nat.mod_lt _ (by norm_num : (0:Nat) < 16)),
    Option.some.injEq]
  omega

theorem decodeChars_charHex6_append (c : Char) (rest : List Char) :
    decodeChars (charHex6 c ++ rest) =
      match decodeChars rest with
      | none => none
      | some cs => some (c :: cs) := by
  show decodeChars
      (hexChar (c.toNat % 16) :: hexChar (c.toNat / 16 % 16) ::
       hexChar (c.toNat / 16 ^ 2 % 16) :: hexChar (c.toNat / 16 ^ 3 % 16) ::
       hexChar (c.toNat / 16 ^ 4 % 16) :: hexChar (c.toNat / 16 ^ 5 % 16) ::
       rest) = _
  rw [decodeChars, hexValsToNat_charHex6]
  simp only [char_toNat_isValidChar c, dite_true, Char.ofNat_toNat]

theorem decodeChars_encodeChars (cs : List Char) :
    decodeChars (encodeChars cs) = some cs := by
  induction cs with
  | nil => rfl
  | cons c rest ih =>
    rw [encodeChars, decodeChars_charHex6_append, ih]

theorem charHex6_no_colon (c : Char) : ∀ x ∈ charHex6 c, x ≠ ':' := by
  intro x hx
  simp only [charHex6, List.mem_cons, List.not_mem_nil, or_false] at hx
  rcases hx with h | h | h | h | h | h <;>
    exact h ▸ hexChar_ne_colon _ (Nat.mod_lt _ (by norm_num))

theorem encodeChars_no_colon (cs : List Char) :
    ∀ x ∈ encodeChars cs, x ≠ ':' := by
  induction cs with
  | nil => intro x hx; simp [encodeChars] at hx
  | cons c rest ih =>
    intro x hx
    rw [encodeChars] at hx
    rcases List.mem_append.mp hx with h | h
    · exact charHex6_no_colon c x h
    · exact ih x h

/-- Model of `uuid::Uuid`: a 128-bit value. -/
abbrev Uuid := Fin (2 ^ 128)

/-- Big-endian hex digits of `n`, exactly `k` of them (zero padded). -/
def beHexDigits (k n : Nat) : List Char :=
  (List.range k).map (fun i => hexChar (n / 16 ^ (k - 1 - i) % 16))

theorem beHexDigits_length (k n : Nat) : (beHexDigits k n).length = k := by
  simp [beHexDigits]

theorem beHexDigits_no_dash (k n : Nat) : ∀ c ∈ beHexDigits k n, c ≠ '-' := by
  intro c hc
  simp only [beHexDigits, List.mem_map, List.mem_range] at hc
  obtain ⟨i, _, hi⟩ := hc
  exact hi ▸ hexChar_ne_dash _ (Nat.mod_lt _ (by norm_num))

/-- Recover a natural number from its big-endian hex digit values. -/
def foldHexDigits (ds : List Nat) : Nat :=
  ds.foldl (fun acc d => acc * 16 + d) 0

theorem foldHexDigits_beDigits (k : Nat) :
    ∀ n, n < 16 ^ k →
      foldHexDigits ((List.range k).map (fun i => n / 16 ^ (k - 1 - i) % 16)) = n := by
  induction k with
  | zero =>
    intro n hn
    interval_cases n
    rfl
  | succ k ih =>
    intro n hn
    have hdiv : n / 16 < 16 ^ k := by
      rw [Nat.div_lt_iff_lt_mul (by norm_num : (0:Nat) < 16)]
      calc n < 16 ^ (k + 1) := hn
        _ = 16 ^ k * 16 := by rw [pow_succ]
    have hmap :
        (List.range k).map (fun i => n / 16 ^ (k + 1 - 1 - i) % 16) =
          (List.range k).map (fun i => (n / 16) / 16 ^ (k - 1 - i) % 16) := by
      apply List.map_congr_left
      intro i hi
      have hik : i < k := List.mem_range.mp hi
      have hexp : k + 1 - 1 - i = (k - 1 - i) + 1 := by omega
      rw [hexp, pow_succ, mul_comm, ← Nat.div_div_eq_div_mul]
    have hlast : n / 16 ^ (k + 1 - 1 - k) % 16 = n % 16 := by
      have h0 : k + 1 - 1 - k = 0 := by omega
      rw [h0, pow_zero, Nat.div_one]
    rw [List.range_succ, List.map_append, hmap]
    unfold foldHexDigits
    rw [List.foldl_append]
    have hinit := ih (n / 16) hdiv
    unfold foldHexDigits at hinit
    rw [hinit]
    simp only [List.map_cons, List.map_nil, List.foldl_cons, List.foldl_nil,
      hlast]
    omega

theorem mapM_hexVal_map_hexChar (ds : List Nat) (h : ∀ d ∈ ds, d < 16) :
    (ds.map hexChar).mapM hexVal = some ds := by
  induction ds with
  | nil => rfl
  | cons d rest ih =>
    have hd : d < 16 := h d (List.mem_cons_self d rest)
    have ih2 := ih (fun x hx => h x (List.mem_cons_of_mem d hx))
    rw [List.map_cons, List.mapM_cons, hexVal_hexChar d hd, ih2]
    rfl

theorem beHexDigits_hexVals (k n : Nat) :
    (beHexDigits k n).mapM hexVal =
      some ((List.range k).map (fun i => n / 16 ^ (k - 1 - i) % 16)) := by
  rw [beHexDigits]
  have hcomp :
      (fun i => hexChar (n / 16 ^ (k - 1 - i) % 16)) =
        hexChar ∘ (fun i => n / 16 ^ (k - 1 - i) % 16) := rfl
  rw [hcomp, ← List.map_map]
  apply mapM_hexVal_map_hexChar
  intro d hd
  simp only [List.mem_map, List.mem_range] at hd
  obtain ⟨i, _, hi⟩ := hd
  exact hi ▸ Nat.mod_lt _ (by norm_num)

/-- Model of `Uuid::to_string`: canonical hyphenated lower-case hex,
groups of 8-4-4-4-12 digits. -/
def uuidToString (u : Uuid) : String :=
  let d := beHexDigits 32 u.val
  let r1 := d.drop 8
  let r2 := r1.drop 4
  let r3 := r2.drop 4
  ⟨d.take 8 ++ '-' ::
    (r1.take 4 ++ '-' ::
      (r2.take 4 ++ '-' ::
        (r3.take 4 ++ '-' :: r3.drop 4)))⟩

/-- Model of `Uuid::parse_str` restricted to the canonical hyphenated form
(the form `Uuid::to_string` produces); hex digits of either case accepted. -/
def parseUuid (s : String) : Option Uuid :=
  match splitOnChar '-' s.data with
  | [a, b, c, d, e] =>
    if a.length = 8 ∧ b.length = 4 ∧ c.length = 4 ∧ d.length = 4 ∧
        e.length = 12 then
      match (a ++ b ++ c ++ d ++ e).mapM hexVal with
      | some ds =>
        if h : foldHexDigits ds < 2 ^ 128 then some ⟨foldHexDigits ds, h⟩
        else none
      | none => none
    else none
  | _ => none

theorem parseUuid_uuidToString (u : Uuid) :
    parseUuid (uuidToString u) = some u := by
  have hval : u.val < 16 ^ 32 := by
    have h := u.isLt
    norm_num at h ⊢
    exact h
  set d := beHexDigits 32 u.val with hd
  have hlen : d.length = 32 := beHexDigits_length 32 u.val
  have hnodash : ∀ c ∈ d, c ≠ '-' := beHexDigits_no_dash 32 u.val
  set r1 := d.drop 8 with hr1
  set r2 := r1.drop 4 with hr2
  set r3 := r2.drop 4 with hr3
  have hg1 : ∀ c ∈ d.take 8, c ≠ '-' :=
    fun c hc => hnodash c (List.mem_of_mem_take hc)
  have hmr1 : ∀ c ∈ r1, c ≠ '-' :=
    fun c hc => hnodash c (List.mem_of_mem_drop hc)
  have hmr2 : ∀ c ∈ r2, c ≠ '-' :=
    fun c hc => hmr1 c (List.mem_of_mem_drop hc)
  have hmr3 : ∀ c ∈ r3, c ≠ '-' :=
    fun c hc => hmr2 c (List.mem_of_mem_drop hc)
  have hg2 : ∀ c ∈ r1.take 4, c ≠ '-' :=
    fun c hc => hmr1 c (List.mem_of_mem_take hc)
  have hg3 : ∀ c ∈ r2.take 4, c ≠ '-' :=
    fun c hc => hmr2 c (List.mem_of_mem_take hc)
  have hg4 : ∀ c ∈ r3.take 4, c ≠ '-' :=
    fun c hc => hmr3 c (List.mem_of_mem_take hc)
  have hg5 : ∀ c ∈ r3.drop 4, c ≠ '-' :=
    fun c hc => hmr3 c (List.mem_of_mem_drop hc)
  have hsplit :
      splitOnChar '-' (uuidToString u).data =
        [d.take 8, r1.take 4, r2.take 4, r3.take 4, r3.drop 4] := by
    show splitOnChar '-'
        (d.take 8 ++ '-' ::
          (r1.take 4 ++ '-' ::
            (r2.take 4 ++ '-' ::
              (r3.take 4 ++ '-' :: r3.drop 4)))) = _
    rw [splitOnChar_append_sep _ _ _ hg1,
        splitOnChar_append_sep _ _ _ hg2,
        splitOnChar_append_sep _ _ _ hg3,
        splitOnChar_append_sep _ _ _ hg4,
        splitOnChar_no_sep _ _ hg5]
  have hlr1 : r1.length = 24 := by rw [hr1, List.length_drop, hlen]
  have hlr2 : r2.length = 20 := by rw [hr2, List.length_drop, hlr1]
  have hlr3 : r3.length = 16 := by rw [hr3, List.length_drop, hlr2]
  have hcat :
      d.take 8 ++ r1.take 4 ++ r2.take 4 ++ r3.take 4 ++ r3.drop 4 = d := by
    simp only [List.append_assoc]
    rw [List.take_append_drop, hr3, List.take_append_drop, hr2,
      List.take_append_drop, hr1, List.take_append_drop]
  have hlens : (d.take 8).length = 8 ∧ (r1.take 4).length = 4 ∧
      (r2.take 4).length = 4 ∧ (r3.take 4).length = 4 ∧
      (r3.drop 4).length = 12 := by
    refine ⟨?_, ?_, ?_, ?_, ?_⟩ <;>
      simp [List.length_take, List.length_drop, hlen, hlr1, hlr2, hlr3]
  rw [parseUuid, hsplit]
  show (if (d.take 8).length = 8 ∧ (r1.take 4).length = 4 ∧
        (r2.take 4).length = 4 ∧ (r3.take 4).length = 4 ∧
        (r3.drop 4).length = 12 then
      match (d.take 8 ++ r1.take 4 ++ r2.take 4 ++ r3.take 4 ++
          r3.drop 4).mapM hexVal with
      | some ds =>
        if h : foldHexDigits ds < 2 ^ 128 then some ⟨foldHexDigits ds, h⟩
        else none
      | none => none
    else none) = some u
  rw [if_pos hlens, hcat, hd, beHexDigits_hexVals]
  have hfin : u.val < 2 ^ 128 := u.isLt
  simp [foldHexDigits_beDigits 32 u.val hval, hfin, Fin.eta]

/-- Default signature-validation leeway of the `jsonwebtoken` crate
(`Validation::default()`), in seconds. -/
def LEEWAY : Nat := 60

/-- Model of reading the `JWT_SECRET` environment variable with the
silent fallback `"secretkey"` (src/auth.rs lines 32 and 54). -/
def jwtSecret (env : Option String) : String := env.getD "secretkey"

/-- Model of the encoded JWT produced by `jsonwebtoken::encode` for the
claim set `{sub, exp}` signed with `sig`: an injective rendering with the
subject, expiry and signing secret in colon-separated hex segments. The
real signature (HMAC of header and payload under the secret) is modelled
symbolically by the secret itself, so that checking the signature against
a configured secret succeeds exactly when the secrets coincide. -/
def mkTokenString (sub : String) (exp : Nat) (sig : String) : String :=
  ⟨'j' :: 'w' :: 't' :: ':' ::
    (encodeChars sub.data ++ ':' ::
      (natToHex exp ++ ':' :: encodeChars sig.data))⟩

/-- Model of `jsonwebtoken::decode`'s structural parse: recover the claim
set and the signing secret from an encoded token, `none` on any string not
produced by `mkTokenString`. -/
def parseTokenString (s : String) : Option (String × Nat × String) :=
  match splitOnChar ':' s.data with
  | [j, a, b, c] =>
    if j = ['j', 'w', 't'] then
      match decodeChars a, hexToNat b, decodeChars c with
      | some sub, some exp, some sig => some (⟨sub⟩, exp, ⟨sig⟩)
      | _, _, _ => none
    else none
  | _ => none

theorem parseTokenString_mkTokenString (sub : String) (exp : Nat)
    (sig : String) :
    parseTokenString (mkTokenString sub exp sig) = some (sub, exp, sig) := by
  have hsplit :
      splitOnChar ':' (mkTokenString sub exp sig).data =
        [['j', 'w', 't'], encodeChars sub.data, natToHex exp,
          encodeChars sig.data] := by
    show splitOnChar ':'
        (['j', 'w', 't'] ++ ':' ::
          (encodeChars sub.data ++ ':' ::
            (natToHex exp ++ ':' :: encodeChars sig.data))) = _
    rw [splitOnChar_append_sep _ _ _ (by decide),
        splitOnChar_append_sep _ _ _ (encodeChars_no_colon sub.data),
        splitOnChar_append_sep _ _ _ (natToHex_no_colon exp),
        splitOnChar_no_sep _ _ (encodeChars_no_colon sig.data)]
  rw [parseTokenString, hsplit]
  show (if (['j', 'w', 't'] : List Char) = ['j', 'w', 't'] then
      match decodeChars (encodeChars sub.data), hexToNat (natToHex exp),
          decodeChars (encodeChars sig.data) with
      | some s1, some e1, some s2 => some (⟨s1⟩, e1, ⟨s2⟩)
      | _, _, _ => none
    else none) = some (sub, exp, sig)
  rw [if_pos rfl, decodeChars_encodeChars, hexToNat_natToHex,
    decodeChars_encodeChars]

/-- Model of `create_token` (src/auth.rs lines 31-48): claim set with
`sub = user_id.to_string()` and `exp = now + 1 hour`, signed with the
configured secret. The `checked_add_signed` overflow panic cannot occur
over `Nat` and is therefore not modelled. -/
def create_token (env : Option String) (now : Nat) (user_id : Uuid) :
    String :=
  mkTokenString (uuidToString user_id) (now + 3600) (jwtSecret env)

/-- Model of `validate_token` (src/auth.rs lines 53-62): decode the token,
check the signature against the configured secret and check the expiry
with the default leeway; return the `sub` claim on success and `none` on
any failure. -/
def validate_token (env : Option String) (now : Nat) (token : String) :
    Option String :=
  match parseTokenString token with
  | some (sub, exp, sig) =>
    if sig = jwtSecret env ∧ ¬ exp < now - LEEWAY then some sub else none
  | none => none

theorem validate_token_create_token (env : Option String) (now t : Nat)
    (u : Uuid) (ht : t ≤ now + 3600 + LEEWAY) :
    validate_token env t (create_token env now u) =
      some (uuidToString u) := by
  rw [create_token, validate_token, parseTokenString_mkTokenString]
  have hexp : ¬ now + 3600 < t - LEEWAY := by omega
  show (if jwtSecret env = jwtSecret env ∧ ¬ now + 3600 < t - LEEWAY then
      some (uuidToString u) else none) = some (uuidToString u)
  rw [if_pos ⟨rfl, hexp⟩]

/-- Stored row of the `users` table; `id` is stored as text in SQLite, so a
malformed (non-UUID) value is representable. -/
structure UserRow where
  id : String
  username : String
  hashed_password : String
deriving DecidableEq, Repr

/-- Stored row of the `stocks` table. -/
structure StockRow where
  id : String
  symbol : String
  price : Float
deriving Repr

/-- Stored row of the `transactions` table. `created_at` is the
store-assigned creation timestamp used by `ORDER BY created_at DESC`. -/
structure TransactionRow where
  id : String
  user_id : String
  stock_id : String
  quantity : Int
  transaction_type : String
  created_at : Nat
deriving DecidableEq, Repr

/-- The SQLite store: the three tables plus the store clock from which
`created_at` is assigned (strictly increasing across inserts). -/
structure DB where
  users : List UserRow
  stocks : List StockRow
  transactions : List TransactionRow
  clock : Nat

/-- Payload for `/login` (src/handlers.rs line 14). Despite the field
name, `hashed_password` carries the plaintext candidate. -/
structure LoginRequest where
  username : String
  hashed_password : String

/-- Payload for `/buy` and `/sell` (src/handlers.rs line 23): note there is
no user field of any kind. -/
structure TransactionRequest where
  stock_id : Uuid
  quantity : Int

/-- Typed transaction record (src/models.rs `Transaction`). -/
structure Transaction where
  id : Uuid
  user_id : Uuid
  stock_id : Uuid
  quantity : Int
  transaction_type : String
deriving DecidableEq, Repr

/-- Typed stock record (src/models.rs `Stock`). -/
structure Stock where
  id : Uuid
  symbol : String
  price : Float

/-- The part of an HTTP request the handlers inspect: the `Authorization`
header, `none` when the header is absent or is not valid as a string
(`to_str().ok()` returning `None`). -/
structure RequestHead where
  authorization : Option String

/-- The possible HTTP responses of the five handlers, plus a distinguished
constructor modelling a rust panic (process abort, no response sent). -/
inductive HttpResponse where
  | okLogin (token : String)
  | okTransaction (id : Uuid) (user_id : Uuid) (stock_id : Uuid)
      (quantity : Int) (transaction_type : String)
  | okTransactions (results : List Transaction)
  | okStock (stock : Stock)
  | unauthorized (body : String)
  | notFound (body : String)
  | internalError (body : String)
  | panicked (msg : String)

/-- Store model of
`SELECT id, hashed_password FROM users WHERE username = ?` + `fetch_one`:
first matching row, or `none` for both the no-row error and a store fault
(the handler treats every `Err(_)` alike). -/
def fetchUserRow (db : DB) (fault : Bool) (username : String) :
    Option UserRow :=
  if fault then none else db.users.find? (fun r => r.username == username)

/-- Store model of `SELECT id, symbol, price FROM stocks WHERE symbol = ?`
+ `fetch_one`, with `fault` again covering any store error. -/
def fetchStockRow (db : DB) (fault : Bool) (symbol : String) :
    Option StockRow :=
  if fault then none else db.stocks.find? (fun r => r.symbol == symbol)

/-- Creation-time descending order used by the store for
`ORDER BY created_at DESC`. -/
def descCreated (a b : TransactionRow) : Prop :=
  b.created_at ≤ a.created_at

instance : DecidableRel descCreated :=
  fun a b => Nat.decLe b.created_at a.created_at

instance : IsTotal TransactionRow descCreated :=
  ⟨fun a b => Nat.le_total b.created_at a.created_at⟩

instance : IsTrans TransactionRow descCreated :=
  ⟨fun _ _ _ h1 h2 => Nat.le_trans h2 h1⟩

/-- Store model of `SELECT ... FROM transactions WHERE user_id = ?
ORDER BY created_at DESC` + `fetch_all`: the rows owned by `uid`, sorted
by creation time, newest first. -/
def queryTransactionsByUser (db : DB) (uid : String) : List TransactionRow :=
  List.insertionSort descCreated
    (db.transactions.filter (fun r => r.user_id == uid))

/-- Model of the `Authorization: Bearer <token>` prefix strip
(`header.strip_prefix("Bearer ")` in src/handlers.rs line 32). -/
def stripBearer (s : String) : Option String :=
  match s.data with
  | 'B' :: 'e' :: 'a' :: 'r' :: 'e' :: 'r' :: ' ' :: rest => some ⟨rest⟩
  | _ => none

/-- Model of `authorize` (src/handlers.rs lines 26-39): extract the bearer
token from the `Authorization` header (absent or non-string headers read
as `""`), validate it, and parse the subject as a UUID; any failure is an
unauthorized error. -/
def authorize (env : Option String) (now : Nat) (req : RequestHead) :
    Except HttpResponse Uuid :=
  let header := req.authorization.getD ""
  match stripBearer header with
  | none =>
    .error (.unauthorized "Missing or malformed Authorization header")
  | some token =>
    match validate_token env now token with
    | none => .error (.unauthorized "Invalid token")
    | some sub =>
      match parseUuid sub with
      | none => .error (.unauthorized "Invalid user ID in token")
      | some user_id => .ok user_id

/-- Model of `login` (src/handlers.rs lines 42-62). `verify` is the
external `bcrypt::verify`, returning `none` for its `Err` case, which the
handler collapses with `unwrap_or(false)`. A stored id that fails UUID
parsing hits `.unwrap()` and panics. -/
def login (verify : String → String → Option Bool) (env : Option String)
    (now : Nat) (db : DB) (fault : Bool) (body : LoginRequest) :
    HttpResponse :=
  match fetchUserRow db fault body.username with
  | none => .unauthorized "Invalid credentials"
  | some row =>
    if ¬ ((verify body.hashed_password row.hashed_password).getD false) then
      .unauthorized "Invalid credentials"
    else
      match parseUuid row.id with
      | none => .panicked "called Result.unwrap on an Err value"
      | some user_id => .okLogin (create_token env now user_id)

/-- Model of `buy_stock` (src/handlers.rs lines 65-90): authorize, insert a
`buy` row owned by the authenticated principal, echo the row. `freshId` is
the `Uuid::new_v4()` value; `fault` models the insert failing, in which
case the store is unchanged. Returns the response and the store after the
request. -/
def buy_stock (env : Option String) (now : Nat) (db : DB) (fault : Bool)
    (freshId : Uuid) (req : RequestHead) (body : TransactionRequest) :
    HttpResponse × DB :=
  match authorize env now req with
  | .error e => (e, db)
  | .ok user_id =>
    if fault then (.internalError "Failed to record buy transaction", db)
    else
      (.okTransaction freshId user_id body.stock_id body.quantity "buy",
       { db with
          transactions := db.transactions ++
            [{ id := uuidToString freshId,
               user_id := uuidToString user_id,
               stock_id := uuidToString body.stock_id,
               quantity := body.quantity,
               transaction_type := "buy",
               created_at := db.clock }],
          clock := db.clock + 1 })

/-- Model of `sell_stock` (src/handlers.rs lines 93-118): identical to
`buy_stock` with kind `"sell"`; in particular no holdings or balance check
of any form. -/
def sell_stock (env : Option String) (now : Nat) (db : DB) (fault : Bool)
    (freshId : Uuid) (req : RequestHead) (body : TransactionRequest) :
    HttpResponse × DB :=
  match authorize env now req with
  | .error e => (e, db)
  | .ok user_id =>
    if fault then (.internalError "Failed to record sell transaction", db)
    else
      (.okTransaction freshId user_id body.stock_id body.quantity "sell",
       { db with
          transactions := db.transactions ++
            [{ id := uuidToString freshId,
               user_id := uuidToString user_id,
               stock_id := uuidToString body.stock_id,
               quantity := body.quantity,
               transaction_type := "sell",
               created_at := db.clock }],
          clock := db.clock + 1 })

/-- Decode one stored transaction row into the typed `Transaction`,
mirroring the per-field `try_get`/`Uuid::parse_str` error handling of
`get_transactions` (src/handlers.rs lines 128-133). -/
def parseTransactionRow (r : TransactionRow) :
    Except HttpResponse Transaction :=
  match parseUuid r.id with
  | none => .error (.internalError "Invalid UUID in id")
  | some id =>
    match parseUuid r.user_id with
    | none => .error (.internalError "Invalid UUID in user_id")
    | some user_id =>
      match parseUuid r.stock_id with
      | none => .error (.internalError "Invalid UUID in stock_id")
      | some stock_id =>
        .ok { id := id, user_id := user_id, stock_id := stock_id,
              quantity := r.quantity,
              transaction_type := r.transaction_type }

/-- Model of `get_transactions` (src/handlers.rs lines 121-144): authorize,
fetch the caller's rows newest first, decode each row. -/
def get_transactions (env : Option String) (now : Nat) (db : DB)
    (fault : Bool) (req : RequestHead) : HttpResponse :=
  match authorize env now req with
  | .error e => e
  | .ok user_id =>
    if fault then .internalError "Failed to query transactions"
    else
      match (queryTransactionsByUser db
          (uuidToString user_id)).mapM parseTransactionRow with
      | .error e => e
      | .ok results => .okTransactions results

/-- Model of `get_stock` (src/handlers.rs lines 147-176): no
authorization; an unknown symbol and a store error collapse into the same
`NotFound` response; a malformed stored id is an internal error. -/
def get_stock (db : DB) (fault : Bool) (symbol : String) : HttpResponse :=
  match fetchStockRow db fault symbol with
  | none => .notFound "Stock not found or DB error"
  | some row =>
    match parseUuid row.id with
    | none => .internalError "Invalid UUID in id"
    | some id => .okStock { id := id, symbol := symbol, price := row.price }

/-- Wellformedness of the stored user table: every stored id is a
canonical UUID string. -/
def usersWellFormed (db : DB) : Prop :=
  ∀ r ∈ db.users, (parseUuid r.id).isSome

/-- Wellformedness of the stored transactions: every reference column is a
canonical UUID string. -/
def transactionsWellFormed (db : DB) : Prop :=
  ∀ r ∈ db.transactions,
    (parseUuid r.id).isSome ∧ (parseUuid r.user_id).isSome ∧
      (parseUuid r.stock_id).isSome

/-- Store-clock discipline: creation timestamps are strictly increasing in
insertion order (each below the current clock), as maintained by the
insert model. -/
def chronological (db : DB) : Prop :=
  db.transactions.Pairwise (fun a b => a.created_at < b.created_at) ∧
    ∀ r ∈ db.transactions, r.created_at < db.clock

theorem stripBearer_bearer (s : String) :
    stripBearer ⟨'B' :: 'e' :: 'a' :: 'r' :: 'e' :: 'r' :: ' ' :: s.data⟩ =
      some s := rfl

theorem data_bearer_append (s : String) :
    ("Bearer " ++ s).data =
      'B' :: 'e' :: 'a' :: 'r' :: 'e' :: 'r' :: ' ' :: s.data := rfl

set_option maxRecDepth 4000 in
theorem authorize_bearer_create (env : Option String) (now t : Nat)
    (u : Uuid) (ht : t ≤ now + 3600 + LEEWAY) :
    authorize env t ⟨some ("Bearer " ++ create_token env now u)⟩ = .ok u := by
  rw [authorize]
  have hstrip :
      stripBearer (("Bearer " ++ create_token env now u : String)) =
        some (create_token env now u) := by
    have hd := data_bearer_append (create_token env now u)
    show stripBearer ⟨("Bearer " ++ create_token env now u).data⟩ = _
    rw [hd, stripBearer_bearer]
  simp only [Option.getD_some]
  rw [hstrip]
  show (match validate_token env t (create_token env now u) with
    | none => Except.error (HttpResponse.unauthorized "Invalid token")
    | some sub =>
      match parseUuid sub with
      | none =>
        Except.error (HttpResponse.unauthorized "Invalid user ID in token")
      | some user_id => Except.ok user_id) = Except.ok u
  rw [validate_token_create_token env now t u ht]
  show (match parseUuid (uuidToString u) with
    | none =>
      Except.error (HttpResponse.unauthorized "Invalid user ID in token")
    | some user_id => Except.ok user_id) = Except.ok u
  rw [parseUuid_uuidToString]

theorem buy_stock_ok (env : Option String) (now : Nat) (db : DB)
    (freshId : Uuid) (req : RequestHead) (body : TransactionRequest)
    (uid : Uuid) (hauth : authorize env now req = .ok uid) :
    buy_stock env now db false freshId req body =
      (.okTransaction freshId uid body.stock_id body.quantity "buy",
       { db with
          transactions := db.transactions ++
            [{ id := uuidToString freshId,
               user_id := uuidToString uid,
               stock_id := uuidToString body.stock_id,
               quantity := body.quantity,
               transaction_type := "buy",
               created_at := db.clock }],
          clock := db.clock + 1 }) := by
  rw [buy_stock, hauth]
  rfl

theorem sell_stock_ok (env : Option String) (now : Nat) (db : DB)
    (freshId : Uuid) (req : RequestHead) (body : TransactionRequest)
    (uid : Uuid) (hauth : authorize env now req = .ok uid) :
    sell_stock env now db false freshId req body =
      (.okTransaction freshId uid body.stock_id body.quantity "sell",
       { db with
          transactions := db.transactions ++
            [{ id := uuidToString freshId,
               user_id := uuidToString uid,
               stock_id := uuidToString body.stock_id,
               quantity := body.quantity,
               transaction_type := "sell",
               created_at := db.clock }],
          clock := db.clock + 1 }) := by
  rw [sell_stock, hauth]
  rfl

theorem parseTransactionRow_userId (r : TransactionRow) (t : Transaction)
    (h : parseTransactionRow r = .ok t) :
    parseUuid r.user_id = some t.user_id := by
  rw [parseTransactionRow] at h
  rcases h1 : parseUuid r.id with _ | id <;> rw [h1] at h
  · exact absurd h (by simp)
  rcases h2 : parseUuid r.user_id with _ | uid <;> rw [h2] at h
  · exact absurd h (by simp)
  rcases h3 : parseUuid r.stock_id with _ | sid <;> rw [h3] at h
  · exact absurd h (by simp)
  simp only [Except.ok.injEq] at h
  rw [← h]

theorem mapM_parseTransactionRow_ok (l : List TransactionRow)
    (h : ∀ r ∈ l, (parseUuid r.id).isSome ∧ (parseUuid r.user_id).isSome ∧
      (parseUuid r.stock_id).isSome) :
    ∃ results, l.mapM parseTransactionRow = .ok results ∧
      results.length = l.length ∧
      ∀ t ∈ results, ∃ r ∈ l, parseTransactionRow r = .ok t := by
  induction l with
  | nil => exact ⟨[], rfl, rfl, by simp⟩
  | cons r rest ih =>
    obtain ⟨hr1, hr2, hr3⟩ := h r (List.mem_cons_self r rest)
    obtain ⟨id, hid⟩ := Option.isSome_iff_exists.mp hr1
    obtain ⟨uid, huid⟩ := Option.isSome_iff_exists.mp hr2
    obtain ⟨sid, hsid⟩ := Option.isSome_iff_exists.mp hr3
    obtain ⟨results, hres, hlen, hmem⟩ :=
      ih (fun x hx => h x (List.mem_cons_of_mem r hx))
    have hone : parseTransactionRow r =
        .ok { id := id, user_id := uid, stock_id := sid,
              quantity := r.quantity,
              transaction_type := r.transaction_type } := by
      rw [parseTransactionRow, hid, huid, hsid]
    refine ⟨{ id := id, user_id := uid, stock_id := sid,
              quantity := r.quantity,
              transaction_type := r.transaction_type } :: results, ?_, ?_, ?_⟩
    · rw [List.mapM_cons, hone, hres]
      rfl
    · simp [hlen]
    · intro t ht
      rcases List.mem_cons.mp ht with ht | ht
      · exact ⟨r, List.mem_cons_self r rest, ht ▸ hone⟩
      · obtain ⟨r2, hr2m, hr2p⟩ := hmem t ht
        exact ⟨r2, List.mem_cons_of_mem r hr2m, hr2p⟩

/-- Concrete identity used by the witnesses. -/
def uA : Uuid := ⟨0, by norm_num⟩

/-- Second concrete identity used by the witnesses. -/
def uB : Uuid := ⟨1, by norm_num⟩

/-- Third concrete identity used by the witnesses. -/
def uC : Uuid := ⟨2, by norm_num⟩

/-- Concrete request carrying a bearer token for `uA` issued at time 1000
with the default secret. -/
def wReq : RequestHead := ⟨some ("Bearer " ++ create_token none 1000 uA)⟩

theorem wAuth : authorize none 1000 wReq = .ok uA :=
  authorize_bearer_create none 1000 1000 uA (by omega)

/-- Empty store used by the witnesses. -/
def wDB0 : DB := ⟨[], [], [], 0⟩

/-- C1: for every Buy or Sell request that passes authorization, the
transaction row inserted into the store has `user_id` equal to the
authenticated principal derived from the verified bearer credential. The
recorded `user_id` is `uuidToString uid` with `uid` produced by
`authorize`, and `TransactionRequest` contains no user field at all, so no
input can make the recorded `user_id` come from the request body. -/
theorem buySell_userId_from_credential (env : Option String) (now : Nat)
    (db : DB) (freshId : Uuid) (req : RequestHead)
    (body : TransactionRequest) (uid : Uuid)
    (hauth : authorize env now req = .ok uid) :
    ((buy_stock env now db false freshId req body).2.transactions =
        db.transactions ++
          [{ id := uuidToString freshId, user_id := uuidToString uid,
             stock_id := uuidToString body.stock_id,
             quantity := body.quantity, transaction_type := "buy",
             created_at := db.clock }]) ∧
    ((sell_stock env now db false freshId req body).2.transactions =
        db.transactions ++
          [{ id := uuidToString freshId, user_id := uuidToString uid,
             stock_id := uuidToString body.stock_id,
             quantity := body.quantity, transaction_type := "sell",
             created_at := db.clock }]) := by
  rw [buy_stock_ok env now db freshId req body uid hauth,
      sell_stock_ok env now db freshId req body uid hauth]
  exact ⟨rfl, rfl⟩

/-- Witness for C1 at a concrete authorized request. -/
theorem buySell_userId_from_credential_witness :
    ((buy_stock none 1000 wDB0 false uB wReq ⟨uC, 5⟩).2.transactions =
        wDB0.transactions ++
          [{ id := uuidToString uB, user_id := uuidToString uA,
             stock_id := uuidToString uC, quantity := 5,
             transaction_type := "buy", created_at := wDB0.clock }]) ∧
    ((sell_stock none 1000 wDB0 false uB wReq ⟨uC, 5⟩).2.transactions =
        wDB0.transactions ++
          [{ id := uuidToString uB, user_id := uuidToString uA,
             stock_id := uuidToString uC, quantity := 5,
             transaction_type := "sell", created_at := wDB0.clock }]) :=
  buySell_userId_from_credential none 1000 wDB0 uB wReq ⟨uC, 5⟩ uA wAuth

/-- C2: issuing a credential for a user with the Token Authority and
immediately verifying it with the same configured secret returns exactly
the string form of that identity. -/
theorem token_issue_verify_roundtrip (env : Option String) (now : Nat)
    (u : Uuid) :
    validate_token env now (create_token env now u) =
      some (uuidToString u) :=
  validate_token_create_token env now now u (by omega)

/-- C3: verification returns the single value `none` on every failure -
structurally malformed credential, wrong signature, expired credential,
or a credential signed under a different configured secret - and its
result type `Option String` carries no error value that could
distinguish the causes. -/
theorem validate_token_uniform_rejection (env env2 : Option String)
    (now now2 : Nat) (s : String) (u : Uuid) :
    (parseTokenString s = none → validate_token env now s = none) ∧
    (∀ sub exp sig, parseTokenString s = some (sub, exp, sig) →
      sig ≠ jwtSecret env → validate_token env now s = none) ∧
    (∀ sub exp sig, parseTokenString s = some (sub, exp, sig) →
      exp < now - LEEWAY → validate_token env now s = none) ∧
    (jwtSecret env2 ≠ jwtSecret env →
      validate_token env now (create_token env2 now2 u) = none) := by
  refine ⟨?_, ?_, ?_, ?_⟩
  · intro hp
    rw [validate_token, hp]
  · intro sub exp sig hp hsig
    rw [validate_token, hp]
    simp [hsig]
  · intro sub exp sig hp hexp
    rw [validate_token, hp]
    simp [hexp]
  · intro hsig
    rw [create_token, validate_token, parseTokenString_mkTokenString]
    simp [hsig]

/-- Witness for C3: a structurally malformed token, a token signed under a
different secret, and an expired token are all rejected with `none`. -/
theorem validate_token_uniform_rejection_witness :
    validate_token none 10000 "garbage" = none ∧
    validate_token none 10000 (create_token (some "other") 0 uA) = none ∧
    validate_token none 10000 (create_token none 0 uA) = none :=
  ⟨(validate_token_uniform_rejection none none 10000 0 "garbage" uA).1 rfl,
   (validate_token_uniform_rejection none (some "other") 10000 0 "garbage"
      uA).2.2.2 (by decide),
   (validate_token_uniform_rejection none none 10000 0
      (create_token none 0 uA) uA).2.2.1 (uuidToString uA) 3600
      (jwtSecret none)
      (parseTokenString_mkTokenString (uuidToString uA) 3600
        (jwtSecret none))
      (by norm_num [LEEWAY])⟩

/-- C5: the issued expiry equals issue time plus exactly 1 hour;
verification more than 1 hour plus the 60-second leeway after issuance is
rejected; verification immediately after issuance succeeds. -/
theorem token_expiry_one_hour (env : Option String) (now t : Nat)
    (u : Uuid) :
    (parseTokenString (create_token env now u) =
      some (uuidToString u, now + 3600, jwtSecret env)) ∧
    (now + 3600 + LEEWAY < t →
      validate_token env t (create_token env now u) = none) ∧
    (validate_token env now (create_token env now u) =
      some (uuidToString u)) := by
  refine ⟨parseTokenString_mkTokenString (uuidToString u) (now + 3600)
      (jwtSecret env), ?_,
    validate_token_create_token env now now u (by omega)⟩
  intro ht
  rw [create_token, validate_token, parseTokenString_mkTokenString]
  have hexp : now + 3600 < t - LEEWAY := by
    simp only [LEEWAY] at ht ⊢
    omega
  simp [hexp]

/-- Witness for C5 at issue time 0, late verification at 3661. -/
theorem token_expiry_one_hour_witness :
    (parseTokenString (create_token none 0 uA) =
      some (uuidToString uA, 0 + 3600, jwtSecret none)) ∧
    validate_token none 3661 (create_token none 0 uA) = none ∧
    validate_token none 0 (create_token none 0 uA) =
      some (uuidToString uA) :=
  ⟨(token_expiry_one_hour none 0 3661 uA).1,
   (token_expiry_one_hour none 0 3661 uA).2.1 (by norm_num [LEEWAY]),
   (token_expiry_one_hour none 0 3661 uA).2.2⟩

/-- C7: an authorized Buy or Sell succeeds for every signed 32-bit
quantity - zero, negative, or exceeding any prior holdings (the store
`db` is arbitrary, so in particular no holdings or balance condition is
consulted) - and records exactly the given quantity. -/
theorem buySell_accept_any_i32_quantity (env : Option String) (now : Nat)
    (db : DB) (freshId : Uuid) (req : RequestHead)
    (body : TransactionRequest) (uid : Uuid)
    (hauth : authorize env now req = .ok uid)
    (hlo : -(2 ^ 31) ≤ body.quantity) (hhi : body.quantity < 2 ^ 31) :
    ((buy_stock env now db false freshId req body).1 =
        .okTransaction freshId uid body.stock_id body.quantity "buy") ∧
    ((sell_stock env now db false freshId req body).1 =
        .okTransaction freshId uid body.stock_id body.quantity "sell") ∧
    (∃ row, (buy_stock env now db false freshId req body).2.transactions =
        db.transactions ++ [row] ∧ row.quantity = body.quantity) ∧
    (∃ row, (sell_stock env now db false freshId req body).2.transactions =
        db.transactions ++ [row] ∧ row.quantity = body.quantity) := by
  rw [buy_stock_ok env now db freshId req body uid hauth,
      sell_stock_ok env now db freshId req body uid hauth]
  exact ⟨rfl, rfl, ⟨_, rfl, rfl⟩, ⟨_, rfl, rfl⟩⟩

/-- Witness for C7 with a negative quantity, against the empty store (so
the Sell in particular exceeds all prior Buys). -/
theorem buySell_accept_any_i32_quantity_witness :
    ((buy_stock none 1000 wDB0 false uB wReq ⟨uC, -7⟩).1 =
        .okTransaction uB uA uC (-7) "buy") ∧
    ((sell_stock none 1000 wDB0 false uB wReq ⟨uC, -7⟩).1 =
        .okTransaction uB uA uC (-7) "sell") ∧
    (∃ row, (buy_stock none 1000 wDB0 false uB wReq ⟨uC, -7⟩).2.transactions =
        wDB0.transactions ++ [row] ∧ row.quantity = -7) ∧
    (∃ row, (sell_stock none 1000 wDB0 false uB wReq ⟨uC, -7⟩).2.transactions =
        wDB0.transactions ++ [row] ∧ row.quantity = -7) :=
  buySell_accept_any_i32_quantity none 1000 wDB0 uB wReq ⟨uC, -7⟩ uA wAuth
    (by norm_num) (by norm_num)

/-- C4: Login returns a credential verifying to exactly the user's
identity when the username exists and the candidate matches the stored
hash; an unknown username and a non-matching candidate both produce the
literally identical `unauthorized "Invalid credentials"` response, so the
two failure causes are indistinguishable. -/
theorem login_auth_behavior (verify : String → String → Option Bool)
    (env : Option String) (now : Nat) (db : DB) (fault : Bool)
    (body : LoginRequest) :
    (fetchUserRow db fault body.username = none →
      login verify env now db fault body =
        .unauthorized "Invalid credentials") ∧
    (∀ row, fetchUserRow db fault body.username = some row →
      (verify body.hashed_password row.hashed_password).getD false = false →
      login verify env now db fault body =
        .unauthorized "Invalid credentials") ∧
    (∀ row uid, fetchUserRow db fault body.username = some row →
      (verify body.hashed_password row.hashed_password).getD false = true →
      parseUuid row.id = some uid →
      login verify env now db fault body =
        .okLogin (create_token env now uid) ∧
      validate_token env now (create_token env now uid) =
        some (uuidToString uid)) := by
  refine ⟨?_, ?_, ?_⟩
  · intro hf
    rw [login, hf]
  · intro row hf hv
    rw [login, hf]
    simp [hv]
  · intro row uid hf hv hid
    constructor
    · rw [login, hf]
      simp only [hv, not_true_eq_false, if_false]
      rw [hid]
    · exact validate_token_create_token env now now uid (by omega)

/-- Password-check function used by the login witnesses: accepts exactly
the candidate `"pw123"` (standing for the stored bcrypt hash check). -/
def wVerify : String → String → Option Bool :=
  fun candidate _ => some (candidate == "pw123")

/-- User table fixture: alice with a well-formed stored id. -/
def wAlice : UserRow :=
  { id := uuidToString uA, username := "alice", hashed_password := "hash" }

/-- Store fixture holding only alice. -/
def wDBalice : DB := ⟨[wAlice], [], [], 0⟩

/-- Witness for C4: alice logs in with the right and the wrong password,
and an unknown user logs in; both failures give the identical response. -/
theorem login_auth_behavior_witness :
    (login wVerify none 1000 wDBalice false ⟨"bob", "pw123"⟩ =
      .unauthorized "Invalid credentials") ∧
    (login wVerify none 1000 wDBalice false ⟨"alice", "wrong"⟩ =
      .unauthorized "Invalid credentials") ∧
    (login wVerify none 1000 wDBalice false ⟨"alice", "pw123"⟩ =
      .okLogin (create_token none 1000 uA)) ∧
    (validate_token none 1000 (create_token none 1000 uA) =
      some (uuidToString uA)) := by
  have h1 := (login_auth_behavior wVerify none 1000 wDBalice false
    ⟨"bob", "pw123"⟩).1 rfl
  have h2 := (login_auth_behavior wVerify none 1000 wDBalice false
    ⟨"alice", "wrong"⟩).2.1 wAlice rfl rfl
  have h3 := (login_auth_behavior wVerify none 1000 wDBalice false
    ⟨"alice", "pw123"⟩).2.2 wAlice uA rfl rfl (parseUuid_uuidToString uA)
  exact ⟨h1, h2, h3.1, h3.2⟩

/-- C8: Get stock returns the single `NotFound` response both when the
symbol is unregistered and when the store lookup faults, and returns the
stock record with the exact stored price for a registered symbol. -/
theorem get_stock_not_found_or_exact_price (db : DB) (fault : Bool)
    (symbol : String) :
    (fetchStockRow db fault symbol = none →
      get_stock db fault symbol = .notFound "Stock not found or DB error") ∧
    (fault = true →
      get_stock db fault symbol = .notFound "Stock not found or DB error") ∧
    (fetchStockRow db false symbol = none ↔
      ∀ r ∈ db.stocks, r.symbol ≠ symbol) ∧
    (∀ row id, fetchStockRow db fault symbol = some row →
      parseUuid row.id = some id →
      get_stock db fault symbol =
        .okStock { id := id, symbol := symbol, price := row.price }) := by
  refine ⟨?_, ?_, ?_, ?_⟩
  · intro hf
    rw [get_stock, hf]
  · intro hfault
    subst hfault
    rw [get_stock]
    rw [show fetchStockRow db true symbol = none from rfl]
  · rw [fetchStockRow]
    simp [List.find?_eq_none]
  · intro row id hf hid
    rw [get_stock, hf]
    simp only []
    rw [hid]

/-- Stock table fixture: one AAPL row with a well-formed id. -/
def wStock : StockRow :=
  { id := uuidToString uC, symbol := "AAPL", price := 100.5 }

/-- Store fixture holding only the AAPL stock. -/
def wDBstock : DB := ⟨[], [wStock], [], 0⟩

/-- Witness for C8: unknown symbol and store fault give `NotFound`; the
registered symbol returns the stored price. -/
theorem get_stock_not_found_or_exact_price_witness :
    (get_stock wDBstock false "MSFT" =
      .notFound "Stock not found or DB error") ∧
    (get_stock wDBstock true "AAPL" =
      .notFound "Stock not found or DB error") ∧
    (get_stock wDBstock false "AAPL" =
      .okStock { id := uC, symbol := "AAPL", price := wStock.price }) :=
  ⟨(get_stock_not_found_or_exact_price wDBstock false "MSFT").1 rfl,
   (get_stock_not_found_or_exact_price wDBstock true "AAPL").2.1 rfl,
   (get_stock_not_found_or_exact_price wDBstock false "AAPL").2.2.2
     wStock uC rfl (parseUuid_uuidToString uC)⟩

/-- C10: if a stored user row matching the given username has a non-UUID
id and the password candidate matches, login reaches the `.unwrap()` and
panics instead of returning a response; under the precondition that every
stored user id is a canonical UUID string this branch is unreachable. -/
theorem login_unwrap_panic_reachability
    (verify : String → String → Option Bool) (env : Option String)
    (now : Nat) (db : DB) (fault : Bool) (body : LoginRequest) :
    (∀ row, fetchUserRow db fault body.username = some row →
      (verify body.hashed_password row.hashed_password).getD false = true →
      parseUuid row.id = none →
      login verify env now db fault body =
        .panicked "called Result.unwrap on an Err value") ∧
    (usersWellFormed db →
      ∀ m, login verify env now db fault body ≠ .panicked m) := by
  constructor
  · intro row hf hv hid
    rw [login, hf]
    simp only [hv, not_true_eq_false, if_false]
    rw [hid]
  · intro hwf m
    rw [login]
    cases hf : fetchUserRow db fault body.username with
    | none => simp
    | some row =>
      have hmem : row ∈ db.users := by
        rw [fetchUserRow] at hf
        rcases fault with _ | _
        · exact List.mem_of_find?_eq_some hf
        · exact absurd hf (by simp)
      have hid := hwf row hmem
      obtain ⟨uid, huid⟩ := Option.isSome_iff_exists.mp hid
      by_cases hv : (verify body.hashed_password row.hashed_password).getD
        false = true
      · simp only [hv, not_true_eq_false, if_false]
        rw [huid]
        simp
      · simp only [hv]
        simp

/-- User table fixture with a malformed stored id. -/
def wMallory : UserRow :=
  { id := "not-a-uuid", username := "mallory", hashed_password := "hash" }

/-- Store fixture holding only the malformed user row. -/
def wDBbad : DB := ⟨[wMallory], [], [], 0⟩

/-- Witness for C10: the malformed row panics on a matching password; the
well-formed store never panics. -/
theorem login_unwrap_panic_reachability_witness :
    (login wVerify none 1000 wDBbad false ⟨"mallory", "pw123"⟩ =
      .panicked "called Result.unwrap on an Err value") ∧
    (∀ m, login wVerify none 1000 wDBalice false ⟨"alice", "pw123"⟩ ≠
      .panicked m) :=
  ⟨(login_unwrap_panic_reachability wVerify none 1000 wDBbad false
      ⟨"mallory", "pw123"⟩).1 wMallory rfl rfl (by decide),
   (login_unwrap_panic_reachability wVerify none 1000 wDBalice false
      ⟨"alice", "pw123"⟩).2 (fun r hr => by
        simp only [wDBalice, List.mem_singleton] at hr
        subst hr
        simp [wAlice, parseUuid_uuidToString])⟩

theorem stripBearer_some_eq (s t : String) (h : stripBearer s = some t) :
    s = "Bearer " ++ t := by
  rw [stripBearer] at h
  split at h
  · rename_i rest heq
    have ht : (⟨rest⟩ : String) = t := by injection h
    subst ht
    cases s with
    | mk data =>
      simp only at heq
      subst heq
      rfl
  · exact absurd h (by simp)

/-- C9: every auth-required operation rejects as unauthorized, before any
store operation runs, a request whose `Authorization` header is absent or
unreadable, whose value does not begin with the literal prefix
`"Bearer "`, whose token fails verification, or whose verified subject is
not a parseable UUID; on a rejected request the store is returned
unchanged. -/
theorem authorize_rejects_malformed (env : Option String) (now : Nat)
    (req : RequestHead) :
    (req.authorization = none →
      authorize env now req =
        .error (.unauthorized "Missing or malformed Authorization header")) ∧
    (∀ s, req.authorization = some s → stripBearer s = none →
      authorize env now req =
        .error (.unauthorized "Missing or malformed Authorization header")) ∧
    (∀ s : String, (¬ ∃ rest : String, s = "Bearer " ++ rest) →
      stripBearer s = none) ∧
    (∀ s t, req.authorization = some s → stripBearer s = some t →
      validate_token env now t = none →
      authorize env now req = .error (.unauthorized "Invalid token")) ∧
    (∀ s t sub, req.authorization = some s → stripBearer s = some t →
      validate_token env now t = some sub → parseUuid sub = none →
      authorize env now req =
        .error (.unauthorized "Invalid user ID in token")) ∧
    (∀ e db fault freshId body, authorize env now req = .error e →
      buy_stock env now db fault freshId req body = (e, db) ∧
      sell_stock env now db fault freshId req body = (e, db) ∧
      get_transactions env now db fault req = e) := by
  refine ⟨?_, ?_, ?_, ?_, ?_, ?_⟩
  · intro hnone
    rw [authorize, hnone]
    rfl
  · intro s hsome hstrip
    rw [authorize, hsome]
    simp only [Option.getD_some]
    rw [hstrip]
  · intro s hne
    cases hs : stripBearer s with
    | none => rfl
    | some t => exact absurd ⟨t, stripBearer_some_eq s t hs⟩ hne
  · intro s t hsome hstrip hval
    rw [authorize, hsome]
    simp only [Option.getD_some]
    rw [hstrip]
    show (match validate_token env now t with
      | none => Except.error (HttpResponse.unauthorized "Invalid token")
      | some sub =>
        match parseUuid sub with
        | none =>
          Except.error (HttpResponse.unauthorized "Invalid user ID in token")
        | some user_id => Except.ok user_id) = _
    rw [hval]
  · intro s t sub hsome hstrip hval hsub
    rw [authorize, hsome]
    simp only [Option.getD_some]
    rw [hstrip]
    show (match validate_token env now t with
      | none => Except.error (HttpResponse.unauthorized "Invalid token")
      | some sub =>
        match parseUuid sub with
        | none =>
          Except.error (HttpResponse.unauthorized "Invalid user ID in token")
        | some user_id => Except.ok user_id) = _
    rw [hval]
    show (match parseUuid sub with
      | none =>
        Except.error (HttpResponse.unauthorized "Invalid user ID in token")
      | some user_id => Except.ok user_id) = _
    rw [hsub]
  · intro e db fault freshId body hauth
    refine ⟨?_, ?_, ?_⟩
    · rw [buy_stock, hauth]
    · rw [sell_stock, hauth]
    · rw [get_transactions, hauth]

/-- Witness for C9: a missing header, a header without the Bearer prefix,
a garbage token, and an unauthorized Buy that leaves the store unchanged. -/
theorem authorize_rejects_malformed_witness :
    (authorize none 1000 ⟨none⟩ =
      .error (.unauthorized "Missing or malformed Authorization header")) ∧
    (authorize none 1000 ⟨some "Basic abc"⟩ =
      .error (.unauthorized "Missing or malformed Authorization header")) ∧
    (authorize none 1000 ⟨some "Bearer garbage"⟩ =
      .error (.unauthorized "Invalid token")) ∧
    (buy_stock none 1000 wDB0 false uB ⟨none⟩ ⟨uC, 5⟩ =
      (.unauthorized "Missing or malformed Authorization header", wDB0)) :=
  ⟨(authorize_rejects_malformed none 1000 ⟨none⟩).1 rfl,
   (authorize_rejects_malformed none 1000 ⟨some "Basic abc"⟩).2.1
     "Basic abc" rfl rfl,
   (authorize_rejects_malformed none 1000 ⟨some "Bearer garbage"⟩).2.2.2.1
     "Bearer garbage" "garbage" rfl rfl rfl,
   ((authorize_rejects_malformed none 1000 ⟨none⟩).2.2.2.2.2
     (.unauthorized "Missing or malformed Authorization header") wDB0 false
     uB ⟨uC, 5⟩
     ((authorize_rejects_malformed none 1000 ⟨none⟩).1 rfl)).1⟩

/-- C6: for an authenticated caller, List transactions returns exactly the
rows whose `user_id` equals the caller's identity, in strictly descending
creation-time order (strictness holds because the store clock assigns
distinct, increasing timestamps, captured by `chronological`), and the
empty sequence when the caller owns no rows. -/
theorem get_transactions_owned_desc (env : Option String) (now : Nat)
    (db : DB) (req : RequestHead) (uid : Uuid)
    (hauth : authorize env now req = .ok uid)
    (hwf : transactionsWellFormed db)
    (hchrono : chronological db) :
    (queryTransactionsByUser db (uuidToString uid)).Perm
        (db.transactions.filter (fun r => r.user_id == uuidToString uid)) ∧
    (∀ r ∈ queryTransactionsByUser db (uuidToString uid),
        r ∈ db.transactions ∧ r.user_id = uuidToString uid) ∧
    (queryTransactionsByUser db (uuidToString uid)).Pairwise
        (fun a b => b.created_at < a.created_at) ∧
    (∃ results,
      get_transactions env now db false req = .okTransactions results ∧
      (queryTransactionsByUser db (uuidToString uid)).mapM
          parseTransactionRow = .ok results ∧
      results.length =
        (queryTransactionsByUser db (uuidToString uid)).length ∧
      (∀ t ∈ results, t.user_id = uid) ∧
      ((∀ r ∈ db.transactions, r.user_id ≠ uuidToString uid) →
        results = [])) := by
  have hperm : (queryTransactionsByUser db (uuidToString uid)).Perm
      (db.transactions.filter (fun r => r.user_id == uuidToString uid)) :=
    List.perm_insertionSort descCreated _
  have hmem : ∀ r ∈ queryTransactionsByUser db (uuidToString uid),
      r ∈ db.transactions ∧ r.user_id = uuidToString uid := by
    intro r hr
    have hrf := hperm.subset hr
    have := List.mem_filter.mp hrf
    exact ⟨this.1, by simpa using this.2⟩
  have hsorted : (queryTransactionsByUser db (uuidToString uid)).Sorted
      descCreated :=
    List.sorted_insertionSort descCreated _
  have hne_filter :
      (db.transactions.filter
        (fun r => r.user_id == uuidToString uid)).Pairwise
        (fun a b => a.created_at ≠ b.created_at) :=
    (hchrono.1.imp (fun h => Nat.ne_of_lt h)).sublist
      (List.filter_sublist db.transactions)
  have hne_q : (queryTransactionsByUser db (uuidToString uid)).Pairwise
      (fun a b => a.created_at ≠ b.created_at) :=
    (hperm.pairwise_iff (fun hab => Ne.symm hab)).mpr hne_filter
  have hdesc : (queryTransactionsByUser db (uuidToString uid)).Pairwise
      (fun a b => b.created_at < a.created_at) :=
    (List.Pairwise.and hsorted hne_q).imp
      (fun hab => Nat.lt_of_le_of_ne hab.1 (Ne.symm hab.2))
  obtain ⟨results, hres, hlen, hback⟩ :=
    mapM_parseTransactionRow_ok (queryTransactionsByUser db
      (uuidToString uid)) (fun r hr => hwf r (hmem r hr).1)
  refine ⟨hperm, hmem, hdesc, results, ?_, hres, hlen, ?_, ?_⟩
  · rw [get_transactions, hauth]
    show (if false = true then
        HttpResponse.internalError "Failed to query transactions"
      else
        match (queryTransactionsByUser db
            (uuidToString uid)).mapM parseTransactionRow with
        | .error e => e
        | .ok results => .okTransactions results) = _
    rw [if_neg (by simp), hres]
  · intro t ht
    obtain ⟨r, hrq, hrp⟩ := hback t ht
    have huid := parseTransactionRow_userId r t hrp
    rw [(hmem r hrq).2, parseUuid_uuidToString] at huid
    exact (Option.some.injEq .. ▸ huid).symm
  · intro hnone
    have hfilter : db.transactions.filter
        (fun r => r.user_id == uuidToString uid) = [] :=
      List.filter_eq_nil_iff.mpr
        (fun r hr => by simpa using hnone r hr)
    have hq : queryTransactionsByUser db (uuidToString uid) = [] := by
      rw [queryTransactionsByUser] at *
      rw [hfilter]
      rfl
    rw [hq] at hres
    have : (Except.ok [] : Except HttpResponse (List Transaction)) =
        .ok results := hres ▸ rfl
    exact (Except.ok.injEq .. ▸ this).symm

/-- Transaction fixture owned by `uA`, oldest. -/
def wT1 : TransactionRow :=
  { id := uuidToString uB, user_id := uuidToString uA,
    stock_id := uuidToString uC, quantity := 5,
    transaction_type := "buy", created_at := 0 }

/-- Transaction fixture owned by `uB` (another user). -/
def wT2 : TransactionRow :=
  { id := uuidToString uC, user_id := uuidToString uB,
    stock_id := uuidToString uC, quantity := 3,
    transaction_type := "buy", created_at := 1 }

/-- Transaction fixture owned by `uA`, newest. -/
def wT3 : TransactionRow :=
  { id := uuidToString uA, user_id := uuidToString uA,
    stock_id := uuidToString uC, quantity := 2,
    transaction_type := "sell", created_at := 2 }

/-- Store fixture with transactions of two different owners. -/
def wDBtx : DB := ⟨[], [], [wT1, wT2, wT3], 3⟩

theorem wDBtx_wellFormed : transactionsWellFormed wDBtx := by
  intro r hr
  simp only [wDBtx, List.mem_cons, List.not_mem_nil, or_false] at hr
  rcases hr with hr | hr | hr <;> subst hr <;>
    simp [wT1, wT2, wT3, parseUuid_uuidToString]

theorem wDBtx_chronological : chronological wDBtx := by
  constructor
  · norm_num [wDBtx, wT1, wT2, wT3, List.pairwise_cons]
  · intro r hr
    simp only [wDBtx, List.mem_cons, List.not_mem_nil, or_false] at hr
    rcases hr with hr | hr | hr <;> subst hr <;>
      norm_num [wDBtx, wT1, wT2, wT3]

/-- Witness for C6 on a store holding rows of two users. -/
theorem get_transactions_owned_desc_witness :
    (queryTransactionsByUser wDBtx (uuidToString uA)).Perm
        (wDBtx.transactions.filter
          (fun r => r.user_id == uuidToString uA)) ∧
    (∀ r ∈ queryTransactionsByUser wDBtx (uuidToString uA),
        r ∈ wDBtx.transactions ∧ r.user_id = uuidToString uA) ∧
    (queryTransactionsByUser wDBtx (uuidToString uA)).Pairwise
        (fun a b => b.created_at < a.created_at) ∧
    (∃ results,
      get_transactions none 1000 wDBtx false wReq =
        .okTransactions results ∧
      (queryTransactionsByUser wDBtx (uuidToString uA)).mapM
          parseTransactionRow = .ok results ∧
      results.length =
        (queryTransactionsByUser wDBtx (uuidToString uA)).length ∧
      (∀ t ∈ results, t.user_id = uA) ∧
      ((∀ r ∈ wDBtx.transactions, r.user_id ≠ uuidToString uA) →
        results = [])) :=
  get_transactions_owned_desc none 1000 wDBtx wReq uA wAuth
    wDBtx_wellFormed wDBtx_chronological

/-- The store-clock discipline assumed by the List-transactions claim is
an invariant of the write path: an authorized Buy (and, by the identical
shape, Sell) preserves `chronological`. -/
theorem buy_preserves_chronological (env : Option String) (now : Nat)
    (db : DB) (freshId : Uuid) (req : RequestHead)
    (body : TransactionRequest) (uid : Uuid)
    (hauth : authorize env now req = .ok uid)
    (h : chronological db) :
    chronological (buy_stock env now db false freshId req body).2 ∧
    chronological (sell_stock env now db false freshId req body).2 := by
  rw [buy_stock_ok env now db freshId req body uid hauth,
      sell_stock_ok env now db freshId req body uid hauth]
  constructor <;>
  · constructor
    · rw [List.pairwise_append]
      refine ⟨h.1, by simp, ?_⟩
      intro a ha b hb
      simp only [List.mem_singleton] at hb
      subst hb
      exact h.2 a ha
    · intro r hr
      rcases List.mem_append.mp hr with hr | hr
      · exact Nat.lt_succ_of_lt (h.2 r hr)
      · simp only [List.mem_singleton] at hr
        subst hr
        exact Nat.lt_succ_self _
